import Mathlib

/-!
Verification development for the agenix-sh task-execution platform.

We shallowly embed the orchestrator (agq/src/orchestrator.rs, agq/src/job.rs),
the worker executor (agw/src/executor.rs), the worker job fetch
(agw/src/worker.rs) and the protocol client response parsing
(agx/src/client.rs), and prove the stated properties about them.

The key-value store itself is an external collaborator (spec §4.3); its four
primitives are modelled from the spec. Rust `HashSet`/`Vec` fields become
lists; JSON (de)serialisation of job records is modelled as the identity
(records are stored directly).
-/

namespace Agq

/-- Status of a Job, from agq/src/job.rs `JobStatus`. -/
inductive JobStatus where
  | Pending
  | Ready
  | Running
  | Completed
  | Failed
  | Cancelled
deriving Repr, DecidableEq

/-- `JobStatus::is_terminal`, from agq/src/job.rs. -/
def JobStatus.is_terminal : JobStatus → Bool
  | .Completed | .Failed | .Cancelled => true
  | _ => false

/-- A Job record, from agq/src/job.rs `Job`. `HashSet<String>` fields are
modelled as lists of strings; the opaque `serde_json::Value` env payload is
modelled as a string. -/
structure Job where
  id : String
  action_id : String
  plan_id : String
  task_number : Nat
  command : String
  args : List String
  env : String
  status : JobStatus
  dependencies : List String
  dependents : List String
  worker_id : Option String
  created_at : Nat
  started_at : Option Nat
  completed_at : Option Nat
  exit_code : Option Int
  tags : List String
deriving Repr, DecidableEq

/-- Modelled from the spec: the storage contract (§4.3) of the external
key-value store (agq's storage module is not part of the verified sources).
`kv` holds the string keys (job records, stored directly rather than as
JSON bytes); `lists` holds the named queue lists. -/
structure Database where
  kv : String → Option Job
  lists : String → List String

/-- Modelled from the spec: `set(key, bytes)` storage primitive (§4.3). -/
def Database.set (db : Database) (key : String) (j : Job) : Database :=
  { db with kv := fun k => if k = key then some j else db.kv k }

/-- Modelled from the spec: `get(key) -> bytes?` storage primitive (§4.3). -/
def Database.get (db : Database) (key : String) : Option Job :=
  db.kv key

/-- Modelled from the spec: `lpush(list, bytes)` storage primitive (§4.3),
pushing onto the head of the named list. -/
def Database.lpush (db : Database) (key : String) (v : String) : Database :=
  { db with lists := fun k => if k = key then v :: db.lists k else db.lists k }

/-- The storage key of a job record: `format!("job:{}", job.id)`
(agq/src/orchestrator.rs, `save_job`/`get_job`). -/
def jobKey (id : String) : String := "job:" ++ id

/-- `Orchestrator::save_job`, agq/src/orchestrator.rs lines 141-149. -/
def save_job (db : Database) (j : Job) : Database :=
  db.set (jobKey j.id) j

/-- `Orchestrator::get_job`, agq/src/orchestrator.rs lines 151-162: a missing
key yields the protocol error `Job not found: {id}`. -/
def get_job (db : Database) (job_id : String) : Except String Job :=
  match db.get (jobKey job_id) with
  | none => .error ("Job not found: " ++ job_id)
  | some j => .ok j

/-- The queue selected by `enqueue_job` from the job's tags
(agq/src/orchestrator.rs lines 121-125). -/
def queueFor (tags : List String) : String :=
  if "gpu" ∈ tags then "queue:gpu" else "queue:default"

/-- `Orchestrator::enqueue_job`, agq/src/orchestrator.rs lines 113-137:
set status to Ready, persist, then push the job id onto the routed queue. -/
def enqueue_job (db : Database) (job : Job) : Database :=
  let j := { job with status := JobStatus.Ready }
  let db1 := save_job db j
  db1.lpush (queueFor j.tags) j.id

/-- The loop of `Orchestrator::check_dependencies_met`
(agq/src/orchestrator.rs lines 102-110) over the dependency id list. -/
def checkDepsList (db : Database) : List String → Except String Bool
  | [] => .ok true
  | d :: rest =>
    match get_job db d with
    | .error e => .error e
    | .ok dep =>
      if dep.status ≠ JobStatus.Completed then .ok false
      else checkDepsList db rest

/-- `Orchestrator::check_dependencies_met`, agq/src/orchestrator.rs
lines 102-110. -/
def check_dependencies_met (db : Database) (job : Job) : Except String Bool :=
  checkDepsList db job.dependencies

/-- The body of the `trigger_dependents` loop for one dependent id
(agq/src/orchestrator.rs lines 82-96). The second component is the error,
if any, with which the surrounding function returns early; the first
component is the database state at that point (mutations before an early
return persist, matching the in-place Rust store). -/
def processDependent (db : Database) (dependent_id : String) :
    Database × Option String :=
  match get_job db dependent_id with
  | .error e => (db, some e)
  | .ok dependent =>
    if dependent.status ≠ JobStatus.Pending then (db, none)
    else
      match check_dependencies_met db dependent with
      | .error e => (db, some e)
      | .ok true => (enqueue_job db dependent, none)
      | .ok false => (db, none)

/-- The `trigger_dependents` loop over a list of dependent ids. -/
def triggerList (db : Database) : List String → Database × Option String
  | [] => (db, none)
  | d :: rest =>
    match processDependent db d with
    | (db1, none) => triggerList db1 rest
    | (db1, some e) => (db1, some e)

/-- `Orchestrator::trigger_dependents`, agq/src/orchestrator.rs
lines 81-99. -/
def trigger_dependents (db : Database) (completed_job : Job) :
    Database × Option String :=
  triggerList db completed_job.dependents

/-- `Orchestrator::complete_job`, agq/src/orchestrator.rs lines 45-60.
The completion timestamp is passed in as `now` (the Rust code reads the
clock). -/
def complete_job (db : Database) (job_id : String) (exit_code : Int)
    (now : Nat) : Database × Option String :=
  match get_job db job_id with
  | .error e => (db, some e)
  | .ok job =>
    let j := { job with
                 status := JobStatus.Completed
                 completed_at := some now
                 exit_code := some exit_code }
    trigger_dependents (save_job db j) j

/-- `Orchestrator::fail_job`, agq/src/orchestrator.rs lines 63-78. -/
def fail_job (db : Database) (job_id : String) (exit_code : Int)
    (now : Nat) : Database × Option String :=
  match get_job db job_id with
  | .error e => (db, some e)
  | .ok job =>
    let j := { job with
                 status := JobStatus.Failed
                 completed_at := some now
                 exit_code := some exit_code }
    (save_job db j, none)

/-- `Orchestrator::submit_jobs`, agq/src/orchestrator.rs lines 23-42:
store every job, then enqueue those whose dependency set is empty. -/
def submit_jobs (db : Database) (jobs : List Job) : Database :=
  let db1 := jobs.foldl save_job db
  let ready := jobs.filter (fun j => j.dependencies.isEmpty)
  ready.foldl enqueue_job db1

/-- A primitive storage operation, used to expose the order in which
`submit_jobs` touches the store. -/
inductive StorageOp where
  | set (key : String) (j : Job)
  | lpush (listKey : String) (v : String)
deriving Repr, DecidableEq

/-- Apply one storage operation to the database. -/
def applyOp (db : Database) : StorageOp → Database
  | .set k j => db.set k j
  | .lpush k v => db.lpush k v

/-- Apply a sequence of storage operations, in order. -/
def applyOps (db : Database) (ops : List StorageOp) : Database :=
  ops.foldl applyOp db

/-- The storage operations performed by `enqueue_job`: persist the
Ready-status record, then push the id. -/
def enqueue_job_ops (job : Job) : List StorageOp :=
  let j := { job with status := JobStatus.Ready }
  [.set (jobKey j.id) j, .lpush (queueFor j.tags) j.id]

/-- The storage operations performed by `submit_jobs`, in order: first the
save of every submitted job, then, per dependency-free job, its enqueue
operations. -/
def submit_jobs_ops (jobs : List Job) : List StorageOp :=
  (jobs.map (fun j => StorageOp.set (jobKey j.id) j)) ++
    ((jobs.filter (fun j => j.dependencies.isEmpty)).map enqueue_job_ops).flatten

/-- Every id present on any queue list has a persisted record under its job
key. -/
def queue_ids_persisted (db : Database) : Prop :=
  ∀ q id, id ∈ db.lists q → (db.kv (jobKey id)).isSome = true

end Agq

namespace Agw

/-- `TaskResult`, agw/src/executor.rs lines 9-23. -/
structure TaskResult where
  task_number : Nat
  stdout : String
  stderr : String
  exit_code : Int
  success : Bool
  execution_time_ms : Nat
deriving Repr, DecidableEq

/-- `TaskResult::new`, agw/src/executor.rs lines 38-51: success is
`exit_code == 0`, execution time starts at 0. -/
def TaskResult.new (task_number : Nat) (stdout stderr : String)
    (exit_code : Int) : TaskResult :=
  { task_number := task_number
    stdout := stdout
    stderr := stderr
    exit_code := exit_code
    success := exit_code == 0
    execution_time_ms := 0 }

/-- `PlanResult`, agw/src/executor.rs lines 26-36. -/
structure PlanResult where
  job_id : String
  plan_id : String
  task_results : List TaskResult
  success : Bool
deriving Repr, DecidableEq

/-- `PlanResult::new`, agw/src/executor.rs lines 53-64: the overall success
flag is the conjunction of the success of every recorded task result. -/
def PlanResult.new (job_id plan_id : String)
    (task_results : List TaskResult) : PlanResult :=
  { job_id := job_id
    plan_id := plan_id
    task_results := task_results
    success := task_results.all (fun r => r.success) }

/-- Modelled from the spec: a `TaskTemplate` of a Plan (§3; the declaring
module agw/src/plan.rs is not among the verified sources, the fields are
those used by agw/src/executor.rs). -/
structure Task where
  task_number : Nat
  command : String
  args : List String
  input_from_task : Option Nat
  timeout_secs : Option Nat
deriving Repr, DecidableEq

/-- Modelled from the spec: a `Plan` (§3; the declaring module
agw/src/plan.rs is not among the verified sources, the fields are those
used by agw/src/executor.rs). -/
structure Plan where
  plan_id : String
  plan_description : Option String
  tasks : List Task
deriving Repr, DecidableEq

/-- `std::process::Output` as the sandbox returns it, normalized per spec
§4.6: stdout bytes, stderr bytes (modelled as strings after the lossy UTF-8
conversion in execute_task) and the exit status code (`None` when the
process was terminated by a signal). -/
structure Output where
  stdout : String
  stderr : String
  code : Option Int
deriving Repr, DecidableEq

/-- `ExitStatus::success()`: a normal exit with code 0. -/
def Output.statusSuccess (o : Output) : Bool := o.code == some 0

/-- `ExitStatus::code().unwrap_or(-1)`, agw/src/executor.rs line 260. -/
def Output.exitCode (o : Output) : Int := o.code.getD (-1)

/-- The tail of `execute_task` (agw/src/executor.rs lines 241-276) once the
sandbox future's result is at hand: a sandbox error becomes a synthetic
failed result; otherwise the output is normalized into a `TaskResult`. -/
def taskResultOfRun (task_number : Nat) (runResult : Except String Output)
    (elapsed_ms : Nat) : Except String TaskResult :=
  match runResult with
  | .error e =>
    .ok { task_number := task_number
          success := false
          exit_code := -1
          stdout := ""
          stderr := "Sandbox execution failed: " ++ e
          execution_time_ms := elapsed_ms }
  | .ok output =>
    .ok { task_number := task_number
          success := output.statusSuccess
          exit_code := output.exitCode
          stdout := output.stdout
          stderr := output.stderr
          execution_time_ms := elapsed_ms }

/-- `execute_task`, agw/src/executor.rs lines 192-276. The interaction with
the outside world is passed in: `timerWon` tells whether the configured
timeout expired before the sandbox future finished (it is only consulted
when a timeout is configured, exactly as in the code), `runResult` is the
sandbox call's result, and `elapsed_ms` the measured elapsed time. The
`stdin_input` argument is accepted and ignored, as in the code. -/
def execute_task (command : String) (args : List String)
    (stdin_input : Option String) (timeout_secs : Option Nat)
    (task_number : Nat) (timerWon : Bool) (runResult : Except String Output)
    (elapsed_ms : Nat) : Except String TaskResult :=
  if command = "" then .error "Command cannot be empty"
  else
    match timeout_secs with
    | some t =>
      if timerWon then
        .ok { task_number := task_number
              success := false
              exit_code := -1
              stdout := ""
              stderr := "Task timed out after " ++ toString t ++ "s"
              execution_time_ms := elapsed_ms }
      else taskResultOfRun task_number runResult elapsed_ms
    | none => taskResultOfRun task_number runResult elapsed_ms

/-- The input handed to a task by `execute_plan` (agw/src/executor.rs
lines 124-127): the stored stdout of the declared upstream task, if any.
The `previous_outputs` HashMap is modelled as an association list whose
most recent insertion comes first. -/
def taskInput (outs : List (Nat × String)) (t : Task) : Option String :=
  t.input_from_task.bind
    (fun n => (outs.find? (fun p => p.1 == n)).map (fun p => p.2))

/-- The task loop of `execute_plan` (agw/src/executor.rs lines 121-160),
parameterised by the result of each `execute_task` call (`run` receives
command, args, input, timeout and task number, exactly the arguments the
code passes). A task error aborts the whole plan with that error; a failed
task result halts the loop, keeping the results gathered so far. -/
def runPlanTasks
    (run : String → List String → Option String → Option Nat → Nat →
      Except String TaskResult) :
    List Task → List (Nat × String) → Except String (List TaskResult)
  | [], _ => .ok []
  | t :: rest, outs =>
    match run t.command t.args (taskInput outs t) t.timeout_secs
        t.task_number with
    | .error e => .error e
    | .ok r =>
      let outs1 := (t.task_number, r.stdout) :: outs
      if r.success then
        match runPlanTasks run rest outs1 with
        | .error e => .error e
        | .ok rs => .ok (r :: rs)
      else .ok [r]

/-- `execute_plan`, agw/src/executor.rs lines 109-172, parameterised by the
behaviour `run` of `execute_task`. -/
def execute_plan
    (run : String → List String → Option String → Option Nat → Nat →
      Except String TaskResult)
    (job_id : String) (plan : Plan) : Except String PlanResult :=
  match runPlanTasks run plan.tasks [] with
  | .error e => .error e
  | .ok rs => .ok (PlanResult.new job_id plan.plan_id rs)

/-- `QUEUE_READY`, agw/src/worker.rs line 291. -/
def QUEUE_READY : String := "queue:default"

/-- `QUEUE_PROCESSING`, agw/src/worker.rs line 292. -/
def QUEUE_PROCESSING : String := "queue:processing"

/-- `TIMEOUT`, agw/src/worker.rs line 293: the fixed fetch timeout in
seconds. -/
def FETCH_TIMEOUT : Nat := 5

/-- The queue lists held by the store, as seen by the worker. -/
def Queues : Type := String → List String

/-- Modelled from the spec: the blocking move primitive of the storage
contract (§4.3), `BRPOPLPUSH src dst timeout`: atomically pop the tail of
`src` and push it onto the head of `dst`, or report a timeout (`none`)
when `src` stays empty. The timeout duration itself does not affect the
resulting state. -/
def brpoplpush (qs : Queues) (src dst : String) (timeoutSecs : Nat) :
    Option String × Queues :=
  match (qs src).getLast? with
  | none => (none, qs)
  | some v =>
    let afterPop : Queues :=
      fun k => if k = src then (qs src).dropLast else qs k
    (some v, fun k => if k = dst then v :: afterPop dst else afterPop k)

/-- The steps of `Worker::fetch_job` after the blocking pop
(agw/src/worker.rs lines 300-333): on a timeout, no job; on a popped id,
fetch the metadata (JOB.GET), parse it and validate it, failing with a
worker error on each step, in a queue state `qs1` left by the pop. -/
def fetch_job_after {J : Type} (qs1 : Queues)
    (job_get : String → Except String String)
    (from_json : String → Except String J)
    (validate : J → Except String Unit) :
    Option String → Except String (Option (J × String)) × Queues
  | none => (.ok none, qs1)
  | some job_id_raw =>
    match job_get job_id_raw with
    | .error e =>
      (.error ("Failed to fetch job metadata for '" ++ job_id_raw ++ "': "
        ++ e), qs1)
    | .ok job_json =>
      match from_json job_json with
      | .error e =>
        (.error ("Failed to parse job JSON for '" ++ job_id_raw ++ "': "
          ++ e), qs1)
      | .ok job =>
        match validate job with
        | .error e => (.error ("Job validation failed: " ++ e), qs1)
        | .ok _ => (.ok (some (job, job_id_raw)), qs1)

/-- `Worker::fetch_job`, agw/src/worker.rs lines 287-334, parameterised by
the protocol/parsing collaborators that are not among the verified sources:
`job_get` (the JOB.GET call), `from_json` (`Job::from_json` of
agw/src/plan.rs) and `validate` (`Job::validate` of agw/src/plan.rs). The
worker's registered tags are passed in to record that the code ignores
them. The second component is the resulting queue state. -/
def fetch_job {J : Type} (tags : List String) (qs : Queues)
    (job_get : String → Except String String)
    (from_json : String → Except String J)
    (validate : J → Except String Unit) :
    Except String (Option (J × String)) × Queues :=
  fetch_job_after
    (brpoplpush qs QUEUE_READY QUEUE_PROCESSING FETCH_TIMEOUT).2
    job_get from_json validate
    (brpoplpush qs QUEUE_READY QUEUE_PROCESSING FETCH_TIMEOUT).1

end Agw

namespace Agx

/-- Rust `str::trim_end` on the character list: drop trailing whitespace. -/
def trimRightChars (l : List Char) : List Char :=
  (l.reverse.dropWhile Char.isWhitespace).reverse

/-- Rust `str::trim` (modelled as trim-start of trim-end). -/
def rustTrim (s : String) : String :=
  ⟨(trimRightChars s.data).dropWhile Char.isWhitespace⟩

/-- Rust `str::starts_with(c)`: the first character is `c`. -/
def startsWithChar (s : String) (c : Char) : Bool :=
  s.data.head? == some c

/-- Rust `str::splitn(2, "\r\n")` restricted to what agx/src/client.rs
consumes: `none` when the separator does not occur (fewer than 2 parts),
otherwise the text before the first CRLF and everything after it. -/
def splitFirstCRLF : List Char → Option (List Char × List Char)
  | [] => none
  | [_] => none
  | c1 :: c2 :: rest =>
    if c1 = '\r' ∧ c2 = '\n' then some ([], rest)
    else
      match splitFirstCRLF (c2 :: rest) with
      | none => none
      | some (a, b) => some (c1 :: a, b)

/-- The response-parsing tail of `AgqClient::submit_plan`,
agx/src/client.rs lines 33-51, applied to the decoded response text. -/
def submit_plan_parse (response : String) : Except String String :=
  if startsWithChar response '-' then
    .error ("AGQ Error: " ++ rustTrim response)
  else if startsWithChar response '$' then
    match splitFirstCRLF response.data with
    | none => .error ("Invalid RESP response: " ++ response)
    | some (_, after) => .ok (rustTrim ⟨after⟩)
  else if startsWithChar response '+' then
    .ok (rustTrim ⟨response.data.drop 1⟩)
  else .error ("Unexpected RESP response: " ++ response)

end Agx

namespace Agq

/-- A storage-operation sequence is safe for `db` when every `lpush` of a
job id is performed in a state where that id's job key is already
persisted: a reader can never observe an id on a queue before the job's
metadata record. -/
def safe_ops (db : Database) : List StorageOp → Prop
  | [] => True
  | op :: rest =>
    (match op with
     | .lpush _ id => (db.kv (jobKey id)).isSome = true
     | .set _ _ => True) ∧ safe_ops (applyOp db op) rest

/-- What the `trigger_dependents` loop guarantees for one dependent id
`did` whose stored record is `J`: a non-Pending dependent is left entirely
untouched; a Pending dependent is enqueued exactly when
`check_dependencies_met` returns true, which holds exactly when every
dependency resolves to a Completed job, and the store is unchanged whenever
some resolved dependency is not Completed. -/
def DependentEvaluationSpec (db : Database) (did : String) (J : Job) :
    Prop :=
  (J.status ≠ JobStatus.Pending → processDependent db did = (db, none)) ∧
  (J.status = JobStatus.Pending →
    (check_dependencies_met db J = .ok true ↔
      ∀ d ∈ J.dependencies,
        ∃ dj, get_job db d = .ok dj ∧ dj.status = JobStatus.Completed) ∧
    (check_dependencies_met db J = .ok true →
      processDependent db did = (enqueue_job db J, none) ∧
      (enqueue_job db J).kv (jobKey J.id) =
        some { J with status := JobStatus.Ready }) ∧
    (check_dependencies_met db J = .ok false →
      processDependent db did = (db, none)) ∧
    ((∃ d ∈ J.dependencies,
        ∃ dj, get_job db d = .ok dj ∧ dj.status ≠ JobStatus.Completed) →
      (processDependent db did).1 = db))

/-- The updated record `complete_job` persists for the completed job. -/
def completedRecord (job : Job) (code : Int) (now : Nat) : Job :=
  { job with
      status := JobStatus.Completed
      completed_at := some now
      exit_code := some code }

/-- The updated record `fail_job` persists for the failed job. -/
def failedRecord (job : Job) (code : Int) (now : Nat) : Job :=
  { job with
      status := JobStatus.Failed
      completed_at := some now
      exit_code := some code }

/-- What `complete_job` guarantees: an unknown id yields the not-found
protocol error with the store untouched; a known id has its record updated
to Completed with timestamp and exit code, persisted, and dependents are
triggered on the persisted state. -/
def CompleteJobSpec (db : Database) (job_id : String) (code : Int)
    (now : Nat) : Prop :=
  (db.kv (jobKey job_id) = none →
    complete_job db job_id code now =
      (db, some ("Job not found: " ++ job_id))) ∧
  (∀ e, get_job db job_id = .error e →
    complete_job db job_id code now = (db, some e)) ∧
  (∀ job, get_job db job_id = .ok job →
    complete_job db job_id code now =
      trigger_dependents (save_job db (completedRecord job code now))
        (completedRecord job code now) ∧
    (save_job db (completedRecord job code now)).kv (jobKey job.id) =
      some (completedRecord job code now))

/-- What `fail_job` guarantees for a known id: the record is updated to
Failed with timestamp and exit code and persisted, every other stored
record is unchanged, no queue is touched, and in particular the record of
every dependent is unchanged (so dependents remain Pending). -/
def FailJobSpec (db : Database) (job_id : String) (code : Int) (now : Nat) :
    Prop :=
  ∀ job, get_job db job_id = .ok job →
    fail_job db job_id code now = (save_job db (failedRecord job code now),
      none) ∧
    (save_job db (failedRecord job code now)).kv (jobKey job.id) =
      some (failedRecord job code now) ∧
    (∀ k, k ≠ jobKey job.id →
      (fail_job db job_id code now).1.kv k = db.kv k) ∧
    (∀ q, (fail_job db job_id code now).1.lists q = db.lists q) ∧
    (∀ d ∈ job.dependents, d ≠ job.id →
      (fail_job db job_id code now).1.kv (jobKey d) = db.kv (jobKey d))

/-- What `submit_jobs` guarantees (for a submission whose job ids are
distinct): it performs exactly the operation trace `submit_jobs_ops`; every
dependency-free job ends up persisted with status Ready and its id pushed
(once) onto its routed queue; every job with dependencies ends up persisted
unchanged (still Pending if it was) and on no queue it was not already on;
and along every prefix of the trace, an id on a queue always has a
persisted record. -/
def SubmitJobsSpec (db : Database) (jobs : List Job) : Prop :=
  submit_jobs db jobs = applyOps db (submit_jobs_ops jobs) ∧
  (∀ j ∈ jobs, j.dependencies = [] →
    (submit_jobs db jobs).kv (jobKey j.id) =
      some { j with status := JobStatus.Ready }) ∧
  (∀ j ∈ jobs, j.dependencies ≠ [] →
    (submit_jobs db jobs).kv (jobKey j.id) = some j) ∧
  (∀ q, (submit_jobs db jobs).lists q =
    ((jobs.filter (fun j => j.dependencies.isEmpty &&
        (queueFor j.tags == q))).map Job.id).reverse ++ db.lists q) ∧
  (∀ j ∈ jobs, j.dependencies ≠ [] → ∀ q,
    j.id ∈ (submit_jobs db jobs).lists q → j.id ∈ db.lists q) ∧
  (queue_ids_persisted db →
    ∀ n, queue_ids_persisted (applyOps db ((submit_jobs_ops jobs).take n)))

/-- Fixture: a completed job `a` with one dependent `b`. -/
def jobA : Job :=
  { id := "a", action_id := "act", plan_id := "p", task_number := 1,
    command := "echo", args := [], env := "", status := .Completed,
    dependencies := [], dependents := ["b"], worker_id := none,
    created_at := 0, started_at := none, completed_at := none,
    exit_code := none, tags := [] }

/-- Fixture: a pending gpu-tagged job `b` depending on `a`. -/
def jobB : Job :=
  { id := "b", action_id := "act", plan_id := "p", task_number := 2,
    command := "echo", args := [], env := "", status := .Pending,
    dependencies := ["a"], dependents := [], worker_id := none,
    created_at := 0, started_at := none, completed_at := none,
    exit_code := none, tags := ["gpu"] }

/-- Fixture: a store holding exactly `jobA` and `jobB`, with empty
queues. -/
def dbAB : Database :=
  { kv := fun k => if k = "job:a" then some jobA
      else if k = "job:b" then some jobB else none,
    lists := fun _ => [] }

/-- Fixture: a dependency-free pending job `c` with dependent `d`. -/
def jobC : Job :=
  { id := "c", action_id := "act", plan_id := "p", task_number := 1,
    command := "echo", args := [], env := "", status := .Pending,
    dependencies := [], dependents := ["d"], worker_id := none,
    created_at := 0, started_at := none, completed_at := none,
    exit_code := none, tags := [] }

/-- Fixture: a pending job `d` depending on `c`. -/
def jobD : Job :=
  { id := "d", action_id := "act", plan_id := "p", task_number := 2,
    command := "wc", args := ["-l"], env := "", status := .Pending,
    dependencies := ["c"], dependents := [], worker_id := none,
    created_at := 0, started_at := none, completed_at := none,
    exit_code := none, tags := [] }

/-- Fixture: the empty store. -/
def dbEmpty : Database :=
  { kv := fun _ => none, lists := fun _ => [] }

end Agq

namespace Agw

/-- `executed` tasks, starting from stored outputs `outs`, produced exactly
the results `rs`: each task was run (in list order) on the input looked up
from the stdout of previously executed tasks, and each run returned the
recorded result. -/
def ranTasks
    (run : String → List String → Option String → Option Nat → Nat →
      Except String TaskResult) :
    List Task → List (Nat × String) → List TaskResult → Prop
  | [], _, [] => True
  | t :: ts, outs, r :: rs =>
    run t.command t.args (taskInput outs t) t.timeout_secs t.task_number =
      .ok r ∧
    ranTasks run ts ((t.task_number, r.stdout) :: outs) rs
  | _, _, _ => False

/-- What `execute_plan` guarantees about a returned `PlanResult`: the
plan's tasks split into an executed prefix and an unexecuted remainder, the
recorded results are exactly the executed prefix's results in order (with
upstream stdout wired into task input), every result but possibly the last
is successful, a non-empty remainder means the last executed task failed,
and the overall success flag is the conjunction of every recorded result's
success. -/
def ExecutePlanSpec
    (run : String → List String → Option String → Option Nat → Nat →
      Except String TaskResult)
    (job_id : String) (plan : Plan) (pr : PlanResult) : Prop :=
  pr.job_id = job_id ∧ pr.plan_id = plan.plan_id ∧
  pr.success = pr.task_results.all (fun r => r.success) ∧
  ∃ executed rest, plan.tasks = executed ++ rest ∧
    pr.task_results.length = executed.length ∧
    ranTasks run executed [] pr.task_results ∧
    (∀ r ∈ pr.task_results.dropLast, r.success = true) ∧
    (rest = [] ∨ ∃ l, pr.task_results.getLast? = some l ∧
      l.success = false)

/-- What `execute_task` guarantees: an error is returned exactly for the
empty command; with a configured timeout that expires, and with a failing
sandbox call, a synthetic failed result (exit code -1, descriptive stderr)
is returned rather than an error. -/
def ExecuteTaskSpec (command : String) (args : List String)
    (stdin_input : Option String) (timeout_secs : Option Nat)
    (task_number : Nat) (timerWon : Bool) (runResult : Except String Output)
    (elapsed_ms : Nat) : Prop :=
  (command = "" →
    execute_task command args stdin_input timeout_secs task_number timerWon
      runResult elapsed_ms = .error "Command cannot be empty") ∧
  (command ≠ "" →
    ∃ r, execute_task command args stdin_input timeout_secs task_number
      timerWon runResult elapsed_ms = .ok r) ∧
  (command ≠ "" → ∀ t, timeout_secs = some t → timerWon = true →
    execute_task command args stdin_input timeout_secs task_number timerWon
        runResult elapsed_ms =
      .ok ⟨task_number, "", "Task timed out after " ++ toString t ++ "s",
        -1, false, elapsed_ms⟩) ∧
  (command ≠ "" → (timeout_secs = none ∨ timerWon = false) →
    ∀ e, runResult = .error e →
    execute_task command args stdin_input timeout_secs task_number timerWon
        runResult elapsed_ms =
      .ok ⟨task_number, "", "Sandbox execution failed: " ++ e, -1, false,
        elapsed_ms⟩)

/-- What `fetch_job` guarantees: its behaviour does not depend on the
worker's registered tags; it always works on the fixed queue names and the
fixed 5-second timeout; a fetched id always comes from the tail of
`queue:default` and is moved onto `queue:processing`; the `queue:gpu` list
is never touched and an id not on `queue:default` is never fetched. -/
def FetchJobSpec {J : Type} (tags : List String) (qs : Queues)
    (job_get : String → Except String String)
    (from_json : String → Except String J)
    (validate : J → Except String Unit) : Prop :=
  (∀ tags2, fetch_job tags2 qs job_get from_json validate =
    fetch_job tags qs job_get from_json validate) ∧
  QUEUE_READY = "queue:default" ∧
  QUEUE_PROCESSING = "queue:processing" ∧
  FETCH_TIMEOUT = 5 ∧
  (∀ j id,
    (fetch_job tags qs job_get from_json validate).1 = .ok (some (j, id)) →
    (qs "queue:default").getLast? = some id ∧
    (fetch_job tags qs job_get from_json validate).2 "queue:processing" =
      id :: qs "queue:processing" ∧
    (fetch_job tags qs job_get from_json validate).2 "queue:default" =
      (qs "queue:default").dropLast) ∧
  ((fetch_job tags qs job_get from_json validate).2 "queue:gpu" =
    qs "queue:gpu") ∧
  (∀ j id, id ∉ qs "queue:default" →
    (fetch_job tags qs job_get from_json validate).1 ≠ .ok (some (j, id)))

/-- Fixture: an `execute_task` behaviour where the command `sh` exits with
code 42 and every other command succeeds. -/
def runW : String → List String → Option String → Option Nat → Nat →
    Except String TaskResult :=
  fun cmd _ _ _ tn =>
    .ok (TaskResult.new tn "out" "" (if cmd = "sh" then 42 else 0))

/-- Fixture: the plan of the spec example, `sh -c "exit 42"` followed by an
echo that must not run. -/
def planW : Plan :=
  { plan_id := "plan-456", plan_description := none,
    tasks :=
      [{ task_number := 1, command := "sh", args := ["-c", "exit 42"],
         input_from_task := none, timeout_secs := some 30 },
       { task_number := 2, command := "echo", args := ["should not run"],
         input_from_task := none, timeout_secs := some 30 }] }

/-- Fixture: the plan result of running `planW` under `runW`. -/
def prW : PlanResult :=
  { job_id := "job-123", plan_id := "plan-456",
    task_results := [TaskResult.new 1 "out" "" 42], success := false }

/-- Fixture: a queue state with one default job and one gpu job. -/
def qsW : Queues :=
  fun k => if k = "queue:default" then ["j1"]
    else if k = "queue:gpu" then ["g1"] else []

/-- Fixture: a JOB.GET collaborator always returning the same metadata. -/
def job_getW : String → Except String String := fun _ => .ok "json"

/-- Fixture: a parsing collaborator returning a trivial job value. -/
def from_jsonW : String → Except String Nat := fun _ => .ok 0

/-- Fixture: a validation collaborator accepting everything. -/
def validateW : Nat → Except String Unit := fun _ => .ok ()

end Agw

namespace Agq

/-- Job-record keys are distinct for distinct ids. -/
theorem jobKey_inj (a b : String) (h : jobKey a = jobKey b) : a = b := by
  have hd := congrArg String.data h
  simp only [jobKey, String.data_append] at hd
  exact String.ext (List.append_cancel_left hd)

/-- The dependency-check loop returns true exactly when every listed id
resolves to a stored job with status Completed. -/
theorem checkDepsList_ok_true_iff (db : Database) (l : List String) :
    checkDepsList db l = .ok true ↔
      ∀ d ∈ l, ∃ dj, get_job db d = .ok dj ∧
        dj.status = JobStatus.Completed := by
  induction l with
  | nil => simp [checkDepsList]
  | cons d rest ih =>
    constructor
    · intro h d2 hd2
      cases hg : get_job db d with
      | error e =>
        simp only [checkDepsList, hg] at h
        exact absurd h (by simp)
      | ok dep =>
        by_cases hs : dep.status = JobStatus.Completed
        · simp only [checkDepsList, hg, hs] at h
          simp only [ne_eq, not_true_eq_false, if_false] at h
          rcases List.mem_cons.mp hd2 with h1 | h1
          · subst h1; exact ⟨dep, hg, hs⟩
          · exact ih.mp h d2 h1
        · simp only [checkDepsList, hg] at h
          rw [if_pos hs] at h
          simp at h
    · intro h
      obtain ⟨dep, hg, hs⟩ := h d (List.mem_cons_self d rest)
      simp only [checkDepsList, hg, hs]
      simp only [ne_eq, not_true_eq_false, if_false]
      exact ih.mpr (fun d2 hd2 => h d2 (List.mem_cons_of_mem d hd2))

/-- C1: when `trigger_dependents` evaluates a dependent `J` (with a
non-empty dependency set) after a dependency of it completed, a non-Pending
`J` is left untouched; a Pending `J` is enqueued if and only if
`check_dependencies_met` returns true, which holds if and only if every
dependency id resolves to a stored job with status Completed, and any
resolved non-Completed dependency keeps `J` (and the whole store)
unchanged, hence Pending. -/
theorem trigger_dependents_evaluation (db : Database) (cj : Job)
    (did : String) (J : Job) (hmem : did ∈ cj.dependents)
    (hne : J.dependencies ≠ []) (hget : get_job db did = .ok J) :
    trigger_dependents db cj = triggerList db cj.dependents ∧
    DependentEvaluationSpec db did J := by
  refine ⟨rfl, ?_, ?_⟩
  · intro hnp
    simp [processDependent, hget, hnp]
  · intro hp
    have hiff : check_dependencies_met db J = .ok true ↔
        ∀ d ∈ J.dependencies, ∃ dj, get_job db d = .ok dj ∧
          dj.status = JobStatus.Completed := by
      simpa [check_dependencies_met] using
        checkDepsList_ok_true_iff db J.dependencies
    refine ⟨hiff, ?_, ?_, ?_⟩
    · intro hc
      constructor
      · simp [processDependent, hget, hp, hc]
      · simp [enqueue_job, save_job, Database.set, Database.lpush]
    · intro hc
      simp [processDependent, hget, hp, hc]
    · rintro ⟨d, hd, dj, hdj, hs⟩
      cases hc : check_dependencies_met db J with
      | error e => simp [processDependent, hget, hp, hc]
      | ok b =>
        cases b with
        | false => simp [processDependent, hget, hp, hc]
        | true =>
          obtain ⟨dj2, hdj2, hcomp⟩ := hiff.mp hc d hd
          rw [hdj] at hdj2
          injection hdj2 with hdjeq
          subst hdjeq
          exact absurd hcomp hs

/-- C1 witness: in the fixture store, the pending dependent `b` of the
completed job `a` is enqueued. -/
theorem trigger_dependents_evaluation_witness :
    jobB.status = JobStatus.Pending ∧
    check_dependencies_met dbAB jobB = .ok true ∧
    processDependent dbAB "b" = (enqueue_job dbAB jobB, none) := by
  have h := trigger_dependents_evaluation dbAB jobA "b" jobB (by decide)
    (by decide) rfl
  exact ⟨rfl, rfl, ((h.2.2 rfl).2.1 rfl).1⟩

/-- C3: `complete_job` on an unknown id returns the not-found protocol
error with the store untouched; on a known id it persists the record
updated to Completed with completion timestamp and exit code, and then
triggers the dependents on the persisted state. -/
theorem complete_job_correct (db : Database) (job_id : String) (code : Int)
    (now : Nat) : CompleteJobSpec db job_id code now := by
  refine ⟨?_, ?_, ?_⟩
  · intro hnone
    simp [complete_job, get_job, Database.get, hnone]
  · intro e he
    simp [complete_job, he]
  · intro job hj
    refine ⟨?_, ?_⟩
    · simp [complete_job, hj, completedRecord]
    · simp [save_job, Database.set, completedRecord]

/-- C3 witness: completing an unknown id leaves the empty store unchanged
with a not-found error, and completing the fixture job `a` updates then
triggers. -/
theorem complete_job_correct_witness :
    dbEmpty.kv (jobKey "zzz") = none ∧
    complete_job dbEmpty "zzz" 0 5 =
      (dbEmpty, some ("Job not found: " ++ "zzz")) ∧
    get_job dbAB "a" = .ok jobA ∧
    complete_job dbAB "a" 0 5 =
      trigger_dependents (save_job dbAB (completedRecord jobA 0 5))
        (completedRecord jobA 0 5) := by
  have h1 := complete_job_correct dbEmpty "zzz" 0 5
  have h2 := complete_job_correct dbAB "a" 0 5
  exact ⟨rfl, h1.1 rfl, rfl, (h2.2.2 jobA rfl).1⟩

/-- C4: `enqueue_job` routes purely by tags (the designated tag "gpu"
selects "queue:gpu", anything else "queue:default"), persists the record
with status Ready, and pushes exactly the job id onto the selected queue,
touching no other queue and no other record. -/
theorem enqueue_job_routing (db : Database) (job : Job) :
    queueFor job.tags =
      (if "gpu" ∈ job.tags then "queue:gpu" else "queue:default") ∧
    (∀ j2 : Job, j2.tags = job.tags →
      queueFor j2.tags = queueFor job.tags) ∧
    (enqueue_job db job).kv (jobKey job.id) =
      some { job with status := JobStatus.Ready } ∧
    (enqueue_job db job).lists (queueFor job.tags) =
      job.id :: db.lists (queueFor job.tags) ∧
    (∀ q, q ≠ queueFor job.tags →
      (enqueue_job db job).lists q = db.lists q) ∧
    (∀ k, k ≠ jobKey job.id → (enqueue_job db job).kv k = db.kv k) := by
  refine ⟨rfl, ?_, ?_, ?_, ?_, ?_⟩
  · intro j2 h2; rw [h2]
  · simp [enqueue_job, save_job, Database.set, Database.lpush]
  · simp [enqueue_job, save_job, Database.set, Database.lpush]
  · intro q hq
    simp [enqueue_job, save_job, Database.set, Database.lpush, hq]
  · intro k hk
    simp [enqueue_job, save_job, Database.set, Database.lpush, hk]

/-- C4 witness: the gpu-tagged fixture job `b` goes to "queue:gpu" as
Ready, by id, and other queues are untouched. -/
theorem enqueue_job_routing_witness :
    queueFor jobB.tags = "queue:gpu" ∧
    (enqueue_job dbAB jobB).kv (jobKey jobB.id) =
      some { jobB with status := JobStatus.Ready } ∧
    (enqueue_job dbAB jobB).lists (queueFor jobB.tags) =
      jobB.id :: dbAB.lists (queueFor jobB.tags) ∧
    (enqueue_job dbAB jobB).lists "queue:default" =
      dbAB.lists "queue:default" := by
  have h := enqueue_job_routing dbAB jobB
  exact ⟨by decide, h.2.2.1, h.2.2.2.1, h.2.2.2.2.1 "queue:default"
    (by decide)⟩

/-- C5: `fail_job` persists the record updated to Failed with completion
timestamp and exit code; it touches no queue and no other stored record,
so in particular every dependent's record (hence its Pending status) is
unchanged. -/
theorem fail_job_frame (db : Database) (job_id : String) (code : Int)
    (now : Nat) : FailJobSpec db job_id code now := by
  intro job hj
  have heq : fail_job db job_id code now =
      (save_job db (failedRecord job code now), none) := by
    simp [fail_job, hj, failedRecord]
  refine ⟨heq, ?_, ?_, ?_, ?_⟩
  · simp [save_job, Database.set, failedRecord]
  · intro k hk
    rw [heq]
    simp [save_job, Database.set, failedRecord, hk]
  · intro q
    rw [heq]
    simp [save_job, Database.set]
  · intro d hd hne
    have hkey : jobKey d ≠ jobKey job.id :=
      fun hcontra => hne (jobKey_inj _ _ hcontra)
    rw [heq]
    simp [save_job, Database.set, failedRecord, hkey]

/-- Applying a concatenation of operation traces is sequential
application. -/
theorem applyOps_append (db : Database) (A B : List StorageOp) :
    applyOps db (A ++ B) = applyOps (applyOps db A) B := by
  simp [applyOps, List.foldl_append]

/-- The save loop of `submit_jobs` performs exactly one `set` per job. -/
theorem foldl_save_applyOps (l : List Job) (db : Database) :
    l.foldl save_job db =
      applyOps db (l.map (fun j => StorageOp.set (jobKey j.id) j)) := by
  induction l generalizing db with
  | nil => rfl
  | cons j rest ih =>
    simp only [List.foldl_cons, List.map_cons]
    exact ih (save_job db j)

/-- The enqueue loop of `submit_jobs` performs exactly the per-job enqueue
operations, in order. -/
theorem foldl_enqueue_applyOps (l : List Job) (db : Database) :
    l.foldl enqueue_job db =
      applyOps db ((l.map enqueue_job_ops).flatten) := by
  induction l generalizing db with
  | nil => rfl
  | cons j rest ih =>
    simp only [List.foldl_cons, List.map_cons, List.flatten_cons,
      applyOps_append]
    exact ih (enqueue_job db j)

/-- `submit_jobs` is the application of its operation trace. -/
theorem submit_jobs_applyOps (db : Database) (jobs : List Job) :
    submit_jobs db jobs = applyOps db (submit_jobs_ops jobs) := by
  show (jobs.filter (fun j => j.dependencies.isEmpty)).foldl enqueue_job
    (jobs.foldl save_job db) = _
  rw [submit_jobs_ops, applyOps_append, ← foldl_save_applyOps,
    ← foldl_enqueue_applyOps]

/-- `save_job` writes the record under the job's key. -/
theorem save_job_kv_same (db : Database) (j : Job) :
    (save_job db j).kv (jobKey j.id) = some j := by
  simp [save_job, Database.set]

/-- `save_job` leaves every other key unchanged. -/
theorem save_job_kv_frame (db : Database) (j : Job) (key : String)
    (h : key ≠ jobKey j.id) : (save_job db j).kv key = db.kv key := by
  simp [save_job, Database.set, h]

/-- `enqueue_job` leaves every key other than the job's unchanged. -/
theorem enqueue_job_kv_frame (db : Database) (j : Job) (key : String)
    (h : key ≠ jobKey j.id) : (enqueue_job db j).kv key = db.kv key := by
  simp [enqueue_job, save_job, Database.set, Database.lpush, h]

/-- The effect of `enqueue_job` on any queue list. -/
theorem enqueue_job_lists (db : Database) (j : Job) (q : String) :
    (enqueue_job db j).lists q =
      if q = queueFor j.tags then j.id :: db.lists q else db.lists q := by
  by_cases h : q = queueFor j.tags <;>
    simp [enqueue_job, save_job, Database.set, Database.lpush, h]

/-- The save loop does not touch any queue list. -/
theorem foldl_save_lists (l : List Job) (db : Database) :
    (l.foldl save_job db).lists = db.lists := by
  induction l generalizing db with
  | nil => rfl
  | cons j rest ih => exact ih (save_job db j)

/-- The save loop leaves the key of an id not in the list unchanged. -/
theorem foldl_save_kv_frame (l : List Job) (db : Database) (id : String)
    (h : id ∉ l.map Job.id) :
    (l.foldl save_job db).kv (jobKey id) = db.kv (jobKey id) := by
  induction l generalizing db with
  | nil => rfl
  | cons j rest ih =>
    simp only [List.map_cons, List.mem_cons, not_or] at h
    rw [List.foldl_cons, ih (save_job db j) h.2,
      save_job_kv_frame db j _ (fun hc => h.1 (jobKey_inj _ _ hc))]

/-- After the save loop, a listed job (under distinct ids) is stored
unchanged under its key. -/
theorem foldl_save_kv_mem (l : List Job) (db : Database) (j : Job)
    (hnd : (l.map Job.id).Nodup) (hj : j ∈ l) :
    (l.foldl save_job db).kv (jobKey j.id) = some j := by
  induction l generalizing db with
  | nil => cases hj
  | cons j0 rest ih =>
    simp only [List.map_cons, List.nodup_cons] at hnd
    rcases List.mem_cons.mp hj with h1 | h1
    · subst h1
      rw [List.foldl_cons, foldl_save_kv_frame rest _ _ hnd.1,
        save_job_kv_same]
    · exact ih (save_job db j0) hnd.2 h1

/-- The enqueue loop leaves the key of an id not in the list unchanged. -/
theorem foldl_enqueue_kv_frame (l : List Job) (db : Database) (id : String)
    (h : id ∉ l.map Job.id) :
    (l.foldl enqueue_job db).kv (jobKey id) = db.kv (jobKey id) := by
  induction l generalizing db with
  | nil => rfl
  | cons j rest ih =>
    simp only [List.map_cons, List.mem_cons, not_or] at h
    rw [List.foldl_cons, ih (enqueue_job db j) h.2,
      enqueue_job_kv_frame db j _ (fun hc => h.1 (jobKey_inj _ _ hc))]

/-- After the enqueue loop, a listed job (under distinct ids) is stored
with status Ready under its key. -/
theorem foldl_enqueue_kv_mem (l : List Job) (db : Database) (j : Job)
    (hnd : (l.map Job.id).Nodup) (hj : j ∈ l) :
    (l.foldl enqueue_job db).kv (jobKey j.id) =
      some { j with status := JobStatus.Ready } := by
  induction l generalizing db with
  | nil => cases hj
  | cons j0 rest ih =>
    simp only [List.map_cons, List.nodup_cons] at hnd
    rcases List.mem_cons.mp hj with h1 | h1
    · subst h1
      rw [List.foldl_cons, foldl_enqueue_kv_frame rest _ _ hnd.1]
      simp [enqueue_job, save_job, Database.set, Database.lpush]
    · exact ih (enqueue_job db j0) hnd.2 h1

/-- The queue contents produced by the enqueue loop: the ids of the
processed jobs routed to the queue, most recent first, on top of the
previous contents. -/
theorem foldl_enqueue_lists (l : List Job) (db : Database) (q : String) :
    (l.foldl enqueue_job db).lists q =
      ((l.filter (fun j => queueFor j.tags == q)).map Job.id).reverse ++
        db.lists q := by
  induction l generalizing db with
  | nil => rfl
  | cons j rest ih =>
    rw [List.foldl_cons, ih (enqueue_job db j), enqueue_job_lists]
    by_cases h : q = queueFor j.tags
    · have hb : (queueFor j.tags == q) = true := by
        simp [h]
      simp [h, hb, List.filter_cons]
    · have hb : (queueFor j.tags == q) = false := by
        simp [beq_iff_eq]
        exact fun hc => h hc.symm
      simp [h, hb, List.filter_cons]

/-- Every storage operation preserves the presence of a stored record. -/
theorem kv_isSome_applyOp (db : Database) (op : StorageOp) (key : String)
    (h : (db.kv key).isSome = true) :
    ((applyOp db op).kv key).isSome = true := by
  cases op with
  | set k j => by_cases hk : key = k <;> simp [applyOp, Database.set, hk, h]
  | lpush k v => simpa [applyOp, Database.lpush] using h

/-- The save loop preserves the presence of a stored record. -/
theorem kv_isSome_foldl_save (l : List Job) (db : Database) (key : String)
    (h : (db.kv key).isSome = true) :
    ((l.foldl save_job db).kv key).isSome = true := by
  induction l generalizing db with
  | nil => exact h
  | cons j rest ih =>
    refine ih (save_job db j) ?_
    by_cases hk : key = jobKey j.id
    · subst hk; simp [save_job_kv_same]
    · rw [save_job_kv_frame db j key hk]; exact h

/-- After the save loop, every listed job's key holds a record. -/
theorem kv_isSome_after_saves (l : List Job) (db : Database) (j : Job)
    (hj : j ∈ l) :
    ((l.foldl save_job db).kv (jobKey j.id)).isSome = true := by
  induction l generalizing db with
  | nil => cases hj
  | cons j0 rest ih =>
    rcases List.mem_cons.mp hj with h1 | h1
    · subst h1
      rw [List.foldl_cons]
      exact kv_isSome_foldl_save rest _ _ (by simp [save_job_kv_same])
    · exact ih (save_job db j0) h1

/-- Every trace application preserves the presence of a stored record. -/
theorem kv_isSome_applyOps (ops : List StorageOp) :
    ∀ (db : Database) (key : String), (db.kv key).isSome = true →
      ((applyOps db ops).kv key).isSome = true := by
  induction ops with
  | nil => intro db key h; exact h
  | cons op rest ih =>
    intro db key h
    exact ih (applyOp db op) key (kv_isSome_applyOp db op key h)

/-- Safety of a concatenated trace decomposes sequentially. -/
theorem safe_ops_append (db : Database) (A B : List StorageOp) :
    safe_ops db (A ++ B) ↔
      safe_ops db A ∧ safe_ops (applyOps db A) B := by
  induction A generalizing db with
  | nil => simp [safe_ops, applyOps]
  | cons op rest ih =>
    simp only [List.cons_append, safe_ops]
    rw [show rest.append B = rest ++ B from rfl]
    rw [ih (applyOp db op)]
    rw [show applyOps db (op :: rest) = applyOps (applyOp db op) rest from
      rfl]
    exact and_assoc.symm

/-- A trace of pure `set` operations is always safe. -/
theorem safe_ops_sets (db : Database) (l : List Job) :
    safe_ops db (l.map (fun j => StorageOp.set (jobKey j.id) j)) := by
  induction l generalizing db with
  | nil => trivial
  | cons j rest ih => exact ⟨trivial, ih (applyOp db _)⟩

/-- The enqueue blocks are safe as soon as every job to be enqueued is
already persisted: each block re-persists the record before pushing the
id. -/
theorem safe_ops_enqueues (l : List Job) :
    ∀ db : Database, (∀ j ∈ l, (db.kv (jobKey j.id)).isSome = true) →
      safe_ops db ((l.map enqueue_job_ops).flatten) := by
  induction l with
  | nil => intro db _; trivial
  | cons j rest ih =>
    intro db h
    rw [List.map_cons, List.flatten_cons]
    refine (safe_ops_append db _ _).mpr ⟨?_, ?_⟩
    · refine ⟨trivial, ?_, trivial⟩
      show ((db.set (jobKey j.id) { j with status := JobStatus.Ready }).kv
        (jobKey j.id)).isSome = true
      simp [Database.set]
    · refine ih _ ?_
      intro j2 hj2
      exact kv_isSome_applyOps _ _ _ (h j2 (List.mem_cons_of_mem j hj2))

/-- A safe trace keeps the queue-id/record invariant along every prefix:
no prefix of the trace can expose a queued id without a persisted
record. -/
theorem safe_ops_take_invariant :
    ∀ (ops : List StorageOp) (db : Database), queue_ids_persisted db →
      safe_ops db ops → ∀ n,
      queue_ids_persisted (applyOps db (ops.take n)) := by
  intro ops
  induction ops with
  | nil =>
    intro db hdb _ n
    simpa [applyOps] using hdb
  | cons op rest ih =>
    intro db hdb hsafe n
    cases n with
    | zero => simpa [applyOps] using hdb
    | succ m =>
      rw [List.take_succ_cons]
      show queue_ids_persisted (applyOps (applyOp db op) (rest.take m))
      refine ih (applyOp db op) ?_ hsafe.2 m
      cases op with
      | set k j =>
        intro q id hmem
        exact kv_isSome_applyOp db (.set k j) _ (hdb q id hmem)
      | lpush lk v =>
        intro q id hmem
        by_cases hq : q = lk
        · subst hq
          simp only [applyOp, Database.lpush, if_pos rfl] at hmem
          rcases List.mem_cons.mp hmem with h1 | h1
          · subst h1
            exact hsafe.1
          · exact hdb q id h1
        · simp only [applyOp, Database.lpush, if_neg hq] at hmem
          exact hdb q id hmem

/-- C2: `submit_jobs` persists every submitted job; exactly the jobs with
an empty dependency set are enqueued, ending up Ready with their id on the
routed queue, while jobs with dependencies stay as submitted (Pending) and
are pushed on no queue; and along every prefix of the operation trace, a
job id is never visible on a queue before a record is persisted under its
key. -/
theorem submit_jobs_correct (db : Database) (jobs : List Job)
    (hnd : (jobs.map Job.id).Nodup) : SubmitJobsSpec db jobs := by
  have hsub : List.Sublist
      ((jobs.filter (fun j => j.dependencies.isEmpty)).map Job.id)
      (jobs.map Job.id) := (List.filter_sublist jobs).map Job.id
  have hreadynd :
      ((jobs.filter (fun j => j.dependencies.isEmpty)).map Job.id).Nodup :=
    List.Nodup.sublist hsub hnd
  have hsubmit : submit_jobs db jobs =
      (jobs.filter (fun j => j.dependencies.isEmpty)).foldl enqueue_job
        (jobs.foldl save_job db) := rfl
  have hlists : ∀ q, (submit_jobs db jobs).lists q =
      ((jobs.filter (fun j => j.dependencies.isEmpty &&
        (queueFor j.tags == q))).map Job.id).reverse ++ db.lists q := by
    intro q
    have hpred :
        (fun a : Job => (queueFor a.tags == q) && a.dependencies.isEmpty) =
          (fun j : Job => j.dependencies.isEmpty &&
            (queueFor j.tags == q)) := by
      funext a
      exact Bool.and_comm _ _
    rw [hsubmit, foldl_enqueue_lists, foldl_save_lists, List.filter_filter,
      hpred]
  refine ⟨submit_jobs_applyOps db jobs, ?_, ?_, hlists, ?_, ?_⟩
  · intro j hj hdeps
    have hjr : j ∈ jobs.filter (fun j => j.dependencies.isEmpty) :=
      List.mem_filter.mpr ⟨hj, by simp [hdeps]⟩
    rw [hsubmit]
    exact foldl_enqueue_kv_mem _ _ _ hreadynd hjr
  · intro j hj hdeps
    have hnotin :
        j.id ∉ (jobs.filter (fun j => j.dependencies.isEmpty)).map Job.id
        := by
      intro hmem
      obtain ⟨r, hr, hrid⟩ := List.mem_map.mp hmem
      have hrjobs := (List.mem_filter.mp hr).1
      have hrdeps := (List.mem_filter.mp hr).2
      have hrj : r = j := List.inj_on_of_nodup_map hnd hrjobs hj hrid
      rw [hrj] at hrdeps
      exact hdeps (List.isEmpty_iff.mp hrdeps)
    rw [hsubmit, foldl_enqueue_kv_frame _ _ _ hnotin]
    exact foldl_save_kv_mem _ _ _ hnd hj
  · intro j hj hdeps q hmem
    rw [hlists q] at hmem
    rcases List.mem_append.mp hmem with h1 | h1
    · exfalso
      obtain ⟨r, hr, hrid⟩ := List.mem_map.mp (List.mem_reverse.mp h1)
      have hrjobs := (List.mem_filter.mp hr).1
      have hrdeps := (List.mem_filter.mp hr).2
      have hrj : r = j := List.inj_on_of_nodup_map hnd hrjobs hj hrid
      rw [hrj] at hrdeps
      simp only [Bool.and_eq_true] at hrdeps
      exact hdeps (List.isEmpty_iff.mp hrdeps.1)
    · exact h1
  · intro hq n
    refine safe_ops_take_invariant _ _ hq ?_ n
    rw [submit_jobs_ops]
    refine (safe_ops_append _ _ _).mpr ⟨safe_ops_sets db jobs, ?_⟩
    refine safe_ops_enqueues _ _ ?_
    intro j hj
    rw [← foldl_save_applyOps]
    exact kv_isSome_after_saves _ _ _ ((List.mem_filter.mp hj).1)

/-- C2 witness: submitting the dependency-free job `c` and the dependent
job `d` to the empty store persists both, enqueues exactly `c`, and every
trace prefix keeps queued ids persisted. -/
theorem submit_jobs_correct_witness :
    (([jobC, jobD].map Job.id).Nodup) ∧
    (submit_jobs dbEmpty [jobC, jobD]).kv (jobKey jobC.id) =
      some { jobC with status := JobStatus.Ready } ∧
    (submit_jobs dbEmpty [jobC, jobD]).kv (jobKey jobD.id) = some jobD ∧
    (submit_jobs dbEmpty [jobC, jobD]).lists "queue:default" = ["c"] ∧
    queue_ids_persisted
      (applyOps dbEmpty ((submit_jobs_ops [jobC, jobD]).take 3)) := by
  have h := submit_jobs_correct dbEmpty [jobC, jobD] (by decide)
  refine ⟨by decide, h.2.1 jobC (by simp) rfl,
    h.2.2.1 jobD (by simp) (by decide), ?_, ?_⟩
  · rw [h.2.2.2.1 "queue:default"]
    decide
  · refine h.2.2.2.2.2 ?_ 3
    intro q id hmem
    simp [dbEmpty] at hmem

/-- C5 witness: failing the fixture job `a` leaves its dependent `b`'s
record and all queues unchanged. -/
theorem fail_job_frame_witness :
    get_job dbAB "a" = .ok jobA ∧
    fail_job dbAB "a" 1 5 = (save_job dbAB (failedRecord jobA 1 5), none) ∧
    (fail_job dbAB "a" 1 5).1.kv (jobKey "b") = dbAB.kv (jobKey "b") ∧
    (fail_job dbAB "a" 1 5).1.lists "queue:default" =
      dbAB.lists "queue:default" := by
  have h := fail_job_frame dbAB "a" 1 5
  exact ⟨rfl, (h jobA rfl).1, (h jobA rfl).2.2.2.2 "b" (by decide)
    (by decide), (h jobA rfl).2.2.2.1 "queue:default"⟩

end Agq

namespace Agw

/-- An `ok` outcome of the task loop decomposes the task list into the
executed prefix and the unexecuted remainder: the results are exactly the
executed tasks' results in order, all but possibly the last succeeded, and
tasks remain unexecuted only when the last executed one failed. -/
theorem runPlanTasks_ok
    (run : String → List String → Option String → Option Nat → Nat →
      Except String TaskResult) :
    ∀ (ts : List Task) (outs : List (Nat × String)) (rs : List TaskResult),
      runPlanTasks run ts outs = .ok rs →
      ∃ executed rest, ts = executed ++ rest ∧
        rs.length = executed.length ∧
        ranTasks run executed outs rs ∧
        (∀ r ∈ rs.dropLast, r.success = true) ∧
        (rest = [] ∨ ∃ l, rs.getLast? = some l ∧ l.success = false) := by
  intro ts
  induction ts with
  | nil =>
    intro outs rs h
    simp only [runPlanTasks] at h
    injection h with h
    subst h
    exact ⟨[], [], rfl, rfl, trivial, by intro r hr; simp at hr,
      Or.inl rfl⟩
  | cons t ts ih =>
    intro outs rs h
    simp only [runPlanTasks] at h
    cases hr : run t.command t.args (taskInput outs t) t.timeout_secs
        t.task_number with
    | error e =>
      simp only [hr] at h
      exact absurd h (by simp)
    | ok r =>
      simp only [hr] at h
      by_cases hs : r.success = true
      · rw [if_pos hs] at h
        cases hrec : runPlanTasks run ts ((t.task_number, r.stdout) :: outs)
            with
        | error e =>
          simp only [hrec] at h
          exact absurd h (by simp)
        | ok rs2 =>
          simp only [hrec] at h
          injection h with h
          subst h
          obtain ⟨ex, rest, hsplit, hlen, hran, hsucc, hlast⟩ :=
            ih _ _ hrec
          refine ⟨t :: ex, rest, by rw [List.cons_append, ← hsplit], ?_,
            ⟨hr, hran⟩, ?_, ?_⟩
          · simp [hlen]
          · intro x hx
            cases rs2 with
            | nil => simp at hx
            | cons r2 rs3 =>
              rw [List.dropLast_cons₂] at hx
              rcases List.mem_cons.mp hx with h1 | h1
              · rw [h1]; exact hs
              · exact hsucc x h1
          · cases rs2 with
            | nil =>
              rcases hlast with h1 | ⟨l, hl, _⟩
              · exact Or.inl h1
              · exact absurd hl (by simp)
            | cons r2 rs3 =>
              rcases hlast with h1 | ⟨l, hl, hfail⟩
              · exact Or.inl h1
              · exact Or.inr ⟨l, by rw [List.getLast?_cons_cons]; exact hl,
                  hfail⟩
      · rw [if_neg hs] at h
        injection h with h
        subst h
        refine ⟨[t], ts, rfl, rfl, ⟨hr, trivial⟩, ?_, ?_⟩
        · intro x hx; simp at hx
        · refine Or.inr ⟨r, rfl, ?_⟩
          simpa using hs

/-- C6: `execute_plan` runs the plan's tasks strictly in list order, wiring
each task's declared upstream stdout into its input; it halts at the first
unsuccessful task result, and the returned `PlanResult` holds exactly the
results of the executed prefix, with overall success the conjunction of
every executed task's success. -/
theorem execute_plan_halts
    (run : String → List String → Option String → Option Nat → Nat →
      Except String TaskResult)
    (job_id : String) (plan : Plan) (pr : PlanResult)
    (h : execute_plan run job_id plan = .ok pr) :
    ExecutePlanSpec run job_id plan pr := by
  unfold execute_plan at h
  cases hrec : runPlanTasks run plan.tasks [] with
  | error e =>
    rw [hrec] at h
    exact absurd h (by simp)
  | ok rs =>
    rw [hrec] at h
    injection h with h
    subst h
    obtain ⟨ex, rest, hsplit, hlen, hran, hsucc, hlast⟩ :=
      runPlanTasks_ok run plan.tasks [] rs hrec
    exact ⟨rfl, rfl, rfl, ex, rest, hsplit, hlen, hran, hsucc, hlast⟩

/-- C6 witness: the spec example plan (`sh -c "exit 42"`, then an echo)
executes only the first task, which fails with exit code 42. -/
theorem execute_plan_halts_witness :
    execute_plan runW "job-123" planW = .ok prW ∧
    ExecutePlanSpec runW "job-123" planW prW := by
  constructor
  · rfl
  · exact execute_plan_halts runW "job-123" planW prW rfl

/-- C10: on a plan with an empty task list, `execute_plan` returns a
`PlanResult` with no task results and overall success true (the conjunction
computed by `PlanResult.new` is vacuously true). -/
theorem execute_plan_empty_plan
    (run : String → List String → Option String → Option Nat → Nat →
      Except String TaskResult)
    (job_id pid : String) (desc : Option String) :
    execute_plan run job_id
        { plan_id := pid, plan_description := desc, tasks := [] } =
      .ok { job_id := job_id, plan_id := pid, task_results := [],
            success := true } ∧
    PlanResult.new job_id pid [] =
      { job_id := job_id, plan_id := pid, task_results := [],
        success := true } :=
  ⟨rfl, rfl⟩

/-- Normalising a sandbox outcome never produces an error. -/
theorem taskResultOfRun_isOk (tn : Nat) (rr : Except String Output)
    (ms : Nat) : ∃ r, taskResultOfRun tn rr ms = .ok r := by
  cases rr with
  | error e => exact ⟨_, rfl⟩
  | ok out => exact ⟨_, rfl⟩

/-- C7: `execute_task` returns an error exactly when the command is empty;
for a non-empty command, an expired timeout and a failed sandbox call are
both converted into a successful return of a failed `TaskResult` with exit
code -1 and a descriptive stderr, never into an error. -/
theorem execute_task_errors (command : String) (args : List String)
    (stdin_input : Option String) (timeout_secs : Option Nat)
    (task_number : Nat) (timerWon : Bool) (runResult : Except String Output)
    (elapsed_ms : Nat) :
    ExecuteTaskSpec command args stdin_input timeout_secs task_number
      timerWon runResult elapsed_ms := by
  refine ⟨?_, ?_, ?_, ?_⟩
  · intro hc
    simp [execute_task, hc]
  · intro hc
    cases timeout_secs with
    | none =>
      simp only [execute_task, if_neg hc]
      exact taskResultOfRun_isOk task_number runResult elapsed_ms
    | some t =>
      cases timerWon with
      | false =>
        simp only [execute_task, if_neg hc]
        exact taskResultOfRun_isOk task_number runResult elapsed_ms
      | true =>
        simp only [execute_task, if_neg hc]
        exact ⟨_, rfl⟩
  · intro hc t ht hw
    subst ht
    simp [execute_task, hc, hw]
  · intro hc hdisj e he
    subst he
    rcases hdisj with hn | hw
    · subst hn
      simp [execute_task, hc, taskResultOfRun]
    · cases timeout_secs with
      | none => simp [execute_task, hc, taskResultOfRun]
      | some t => simp [execute_task, hc, hw, taskResultOfRun]

/-- C7 witness: a timed-out sleep and a failed sandbox spawn both come back
as ok failed results; the empty command is the one error. -/
theorem execute_task_errors_witness :
    ("sleep" : String) ≠ "" ∧
    execute_task "sleep" ["10"] none (some 1) 1 true
        (.ok { stdout := "", stderr := "", code := some 0 }) 1500 =
      .ok ⟨1, "", "Task timed out after " ++ toString (1 : Nat) ++ "s", -1,
        false, 1500⟩ ∧
    execute_task "" [] none none 1 false
        (.ok { stdout := "", stderr := "", code := some 0 }) 0 =
      .error "Command cannot be empty" ∧
    execute_task "echo" [] none none 2 false (.error "boom") 3 =
      .ok ⟨2, "", "Sandbox execution failed: " ++ "boom", -1, false, 3⟩ := by
  have h1 := execute_task_errors "sleep" ["10"] none (some 1) 1 true
    (.ok { stdout := "", stderr := "", code := some 0 }) 1500
  have h2 := execute_task_errors "" [] none none 1 false
    (.ok { stdout := "", stderr := "", code := some 0 }) 0
  have h3 := execute_task_errors "echo" [] none none 2 false
    (.error "boom") 3
  exact ⟨by decide, h1.2.2.1 (by decide) 1 rfl rfl, h2.1 rfl,
    h3.2.2.2 (by decide) (Or.inl rfl) "boom" rfl⟩

/-- The queue state left by the post-pop steps is the one they were given:
metadata fetch, parsing and validation do not touch the queues. -/
theorem fetch_job_after_snd {J : Type} (qs1 : Queues)
    (job_get : String → Except String String)
    (from_json : String → Except String J)
    (validate : J → Except String Unit) (popped : Option String) :
    (fetch_job_after qs1 job_get from_json validate popped).2 = qs1 := by
  cases popped with
  | none => rfl
  | some v =>
    simp only [fetch_job_after]
    cases hjg : job_get v with
    | error e => simp [hjg]
    | ok js =>
      simp only [hjg]
      cases hfj : from_json js with
      | error e => simp [hfj]
      | ok job =>
        simp only [hfj]
        cases hvl : validate job with
        | error e => simp [hvl]
        | ok u => simp [hvl]

/-- The resulting queue state of `fetch_job` is the queue state left by the
blocking move, whatever the metadata calls do. -/
theorem fetch_job_snd {J : Type} (tags : List String) (qs : Queues)
    (job_get : String → Except String String)
    (from_json : String → Except String J)
    (validate : J → Except String Unit) :
    (fetch_job tags qs job_get from_json validate).2 =
      (brpoplpush qs QUEUE_READY QUEUE_PROCESSING FETCH_TIMEOUT).2 := by
  unfold fetch_job
  exact fetch_job_after_snd _ _ _ _ _

/-- C9: `fetch_job` ignores the worker's registered tags and always pops
from the tail of the fixed "queue:default" list, moving the popped id onto
"queue:processing" under the fixed 5-second timeout; "queue:gpu" is never
read or written, so a job routed there is never fetched by this code
path. -/
theorem fetch_job_fixed_queue {J : Type} (tags : List String) (qs : Queues)
    (job_get : String → Except String String)
    (from_json : String → Except String J)
    (validate : J → Except String Unit) :
    FetchJobSpec tags qs job_get from_json validate := by
  have hsnd := fetch_job_snd tags qs job_get from_json validate
  have hmain : ∀ (j : J) (id : String),
      (fetch_job tags qs job_get from_json validate).1 =
        .ok (some (j, id)) →
      (qs "queue:default").getLast? = some id ∧
      (fetch_job tags qs job_get from_json validate).2 "queue:processing" =
        id :: qs "queue:processing" ∧
      (fetch_job tags qs job_get from_json validate).2 "queue:default" =
        (qs "queue:default").dropLast := by
    intro j id hok
    unfold fetch_job at hok
    cases hpop : (qs QUEUE_READY).getLast? with
    | none =>
      exfalso
      simp only [brpoplpush, hpop] at hok
      simp [fetch_job_after] at hok
    | some v =>
      simp only [brpoplpush, hpop] at hok
      simp only [fetch_job_after] at hok
      have hvid : v = id := by
        cases hjg : job_get v with
        | error e => simp [hjg] at hok
        | ok js =>
          cases hfj : from_json js with
          | error e => simp [hjg, hfj] at hok
          | ok job =>
            cases hvl : validate job with
            | error e => simp [hjg, hfj, hvl] at hok
            | ok u =>
              simp [hjg, hfj, hvl] at hok
              exact hok.2
      subst hvid
      have hpop2 : (qs "queue:default").getLast? = some v := hpop
      refine ⟨hpop, ?_, ?_⟩
      · rw [hsnd]
        simp only [QUEUE_READY, QUEUE_PROCESSING, FETCH_TIMEOUT]
        simp [brpoplpush, hpop2]
      · rw [hsnd]
        simp only [QUEUE_READY, QUEUE_PROCESSING, FETCH_TIMEOUT]
        simp [brpoplpush, hpop2]
  refine ⟨fun tags2 => rfl, rfl, rfl, rfl, hmain, ?_, ?_⟩
  · rw [hsnd]
    simp only [QUEUE_READY, QUEUE_PROCESSING, FETCH_TIMEOUT]
    cases hpop : (qs "queue:default").getLast? with
    | none => simp [brpoplpush, hpop]
    | some v => simp [brpoplpush, hpop]
  · intro j id hnot hok
    have hlast := (hmain j id hok).1
    have hmemopt : id ∈ (qs "queue:default").getLast? := by
      rw [hlast]
      exact Option.mem_def.mpr rfl
    obtain ⟨hne, heq⟩ := List.mem_getLast?_eq_getLast hmemopt
    refine hnot ?_
    rw [heq]
    exact List.getLast_mem hne

/-- C9 witness: with one id on the default queue and one on the gpu queue,
the default id is fetched and moved to processing, and the gpu id is
untouched and unfetchable. -/
theorem fetch_job_fixed_queue_witness :
    (fetch_job [] qsW job_getW from_jsonW validateW).1 =
      .ok (some (0, "j1")) ∧
    (qsW "queue:default").getLast? = some "j1" ∧
    (fetch_job [] qsW job_getW from_jsonW validateW).2 "queue:processing" =
      "j1" :: qsW "queue:processing" ∧
    (fetch_job [] qsW job_getW from_jsonW validateW).2 "queue:gpu" =
      qsW "queue:gpu" ∧
    ("g1" ∉ qsW "queue:default") ∧
    (fetch_job [] qsW job_getW from_jsonW validateW).1 ≠
      .ok (some (0, "g1")) := by
  have h := fetch_job_fixed_queue [] qsW job_getW from_jsonW validateW
  refine ⟨rfl, ?_, ?_, h.2.2.2.2.2.1, by decide, h.2.2.2.2.2.2 0 "g1"
    (by decide)⟩
  · exact (h.2.2.2.2.1 0 "j1" rfl).1
  · exact (h.2.2.2.2.1 0 "j1" rfl).2.1

end Agw

namespace Agx

/-- Dropping a trailing CRLF is absorbed by right-trimming. -/
theorem trimRightChars_append_crlf (p : List Char) :
    trimRightChars (p ++ ['\r', '\n']) = trimRightChars p := by
  unfold trimRightChars
  rw [List.reverse_append]
  rw [show (['\r', '\n'] : List Char).reverse = ['\n', '\r'] from rfl]
  rw [show (['\n', '\r'] : List Char) ++ p.reverse =
    '\n' :: '\r' :: p.reverse from rfl]
  have h1 : Char.isWhitespace '\n' = true := by decide
  have h2 : Char.isWhitespace '\r' = true := by decide
  simp [List.dropWhile_cons, h1, h2]

/-- Rust `trim` absorbs a trailing CRLF. -/
theorem rustTrim_append_crlf (p : String) :
    rustTrim (p ++ "\r\n") = rustTrim p := by
  unfold rustTrim
  have hd : (p ++ "\r\n").data = p.data ++ ['\r', '\n'] := by
    rw [String.data_append]
  rw [hd, trimRightChars_append_crlf]

/-- Splitting at the first CRLF of `hdr ++ CRLF ++ rest`, for a CR-free
header, yields the header and the remainder. -/
theorem splitFirstCRLF_append (hdr : List Char) (rest : List Char) :
    '\r' ∉ hdr →
      splitFirstCRLF (hdr ++ '\r' :: '\n' :: rest) = some (hdr, rest) := by
  induction hdr with
  | nil =>
    intro _
    rfl
  | cons c hdr2 ih =>
    intro h
    have hc : c ≠ '\r' := by
      intro hcc
      subst hcc
      exact h (List.mem_cons_self _ _)
    have h2 : '\r' ∉ hdr2 := fun hm => h (List.mem_cons_of_mem _ hm)
    cases hdr2 with
    | nil =>
      have hif2 : ¬ (c = '\r' ∧ '\r' = '\n') := fun hand => hc hand.1
      simp only [List.nil_append, List.cons_append, splitFirstCRLF,
        if_neg hif2]
      rfl
    | cons c2 hdr3 =>
      have hif3 : ¬ (c = '\r' ∧ c2 = '\n') := fun hand => hc hand.1
      simp only [List.cons_append, splitFirstCRLF, if_neg hif3]
      rw [show splitFirstCRLF (c2 :: hdr3.append ('\r' :: '\n' :: rest)) =
        some (c2 :: hdr3, rest) from ih h2]

/-- C8: the client's response parsing: a leading `-` yields an error
wrapping the trimmed line; a leading `$` yields the bulk payload following
the declared length header (trimmed); a leading `+` yields the remaining
line trimmed; any other first byte is rejected as a protocol violation. -/
theorem submit_plan_parse_rules :
    (∀ rest : String, submit_plan_parse ("-" ++ rest) =
      .error ("AGQ Error: " ++ rustTrim ("-" ++ rest))) ∧
    (∀ hdr payload : String, '\r' ∉ hdr.data →
      submit_plan_parse ("$" ++ hdr ++ "\r\n" ++ payload ++ "\r\n") =
        .ok (rustTrim payload)) ∧
    (∀ rest : String, submit_plan_parse ("+" ++ rest) =
      .ok (rustTrim rest)) ∧
    (∀ r : String, ∀ c : Char, r.data.head? = some c → c ≠ '-' → c ≠ '$' →
      c ≠ '+' →
      submit_plan_parse r = .error ("Unexpected RESP response: " ++ r)) := by
  refine ⟨?_, ?_, ?_, ?_⟩
  · intro rest
    have hsw : startsWithChar ("-" ++ rest) '-' = true := by
      simp [startsWithChar, String.data_append]
    simp [submit_plan_parse, hsw]
  · intro hdr payload h
    have hdata : ("$" ++ hdr ++ "\r\n" ++ payload ++ "\r\n").data =
        ('$' :: hdr.data) ++ '\r' :: '\n' ::
          (payload.data ++ ['\r', '\n']) := by
      simp [String.data_append]
    have hnotr : '\r' ∉ '$' :: hdr.data := by
      intro hm
      rcases List.mem_cons.mp hm with h1 | h1
      · exact absurd h1 (by decide)
      · exact h h1
    have hsplit := splitFirstCRLF_append ('$' :: hdr.data)
      (payload.data ++ ['\r', '\n']) hnotr
    have hsw1 : startsWithChar ("$" ++ hdr ++ "\r\n" ++ payload ++ "\r\n")
        '-' = false := by
      simp [startsWithChar, hdata]
    have hsw2 : startsWithChar ("$" ++ hdr ++ "\r\n" ++ payload ++ "\r\n")
        '$' = true := by
      simp [startsWithChar, hdata]
    simp only [submit_plan_parse, hsw1, hsw2, Bool.false_eq_true,
      if_false, if_true, hdata, hsplit]
    rw [show (⟨payload.data ++ ['\r', '\n']⟩ : String) = payload ++ "\r\n"
      from rfl]
    rw [rustTrim_append_crlf]
  · intro rest
    have hsw1 : startsWithChar ("+" ++ rest) '-' = false := by
      simp [startsWithChar, String.data_append]
    have hsw2 : startsWithChar ("+" ++ rest) '$' = false := by
      simp [startsWithChar, String.data_append]
    have hsw3 : startsWithChar ("+" ++ rest) '+' = true := by
      simp [startsWithChar, String.data_append]
    have hdrop : ("+" ++ rest).data.drop 1 = rest.data := by
      simp [String.data_append]
    simp only [submit_plan_parse, hsw1, hsw2, hsw3, Bool.false_eq_true,
      if_false, if_true, hdrop]
  · intro r c hhead h1 h2 h3
    have hsw1 : startsWithChar r '-' = false := by
      simp [startsWithChar, hhead, h1]
    have hsw2 : startsWithChar r '$' = false := by
      simp [startsWithChar, hhead, h2]
    have hsw3 : startsWithChar r '+' = false := by
      simp [startsWithChar, hhead, h3]
    simp only [submit_plan_parse, hsw1, hsw2, hsw3, Bool.false_eq_true,
      if_false]

/-- C8 witness: one concrete response of each shape. -/
theorem submit_plan_parse_rules_witness :
    submit_plan_parse ("-" ++ "ERR boom") =
      .error ("AGQ Error: " ++ rustTrim ("-" ++ "ERR boom")) ∧
    ('\r' ∉ ("2" : String).data) ∧
    submit_plan_parse ("$" ++ "2" ++ "\r\n" ++ "ok" ++ "\r\n") =
      .ok (rustTrim "ok") ∧
    submit_plan_parse ("+" ++ "OK") = .ok (rustTrim "OK") ∧
    submit_plan_parse "xyz" =
      .error ("Unexpected RESP response: " ++ "xyz") := by
  have h := submit_plan_parse_rules
  exact ⟨h.1 "ERR boom", by decide, h.2.1 "2" "ok" (by decide),
    h.2.2.1 "OK", h.2.2.2 "xyz" 'x' rfl (by decide) (by decide)
      (by decide)⟩

end Agx
